import Mathlib

/-!
Verification of the auto-db-backups system: a shallow embedding of the
retention evaluator and executor (internal/storage/retention.go), the AES-GCM
stream framing (internal/encrypt), the child-process close semantics
(internal/backup/postgres.go) and the artifact naming logic (main.go),
together with proofs of the specified properties.
-/

namespace AutoDbBackups

/-! Retention model, embedded from internal/storage/retention.go.
Timestamps are modelled as Int nanoseconds, mirroring Go time.Time
differences (time.Duration is an int64 nanosecond count). -/

def nanosecondsPerHour : Int := 3600 * 1000000000

structure BackupObject where
  key : String
  size : Int
  lastModified : Int
deriving Repr, DecidableEq

structure RetentionPolicy where
  days : Int
  count : Int
deriving Repr, DecidableEq

structure RetentionResult where
  deletedCount : Nat
  deletedKeys : List String
  errors : List String
deriving Repr, DecidableEq

def RetentionPolicy.IsEnabled (p : RetentionPolicy) : Bool :=
  decide (p.days > 0) || decide (p.count > 0)

/-- The keep-set built by the first half of determineBackupsToDelete: if the
count policy is set and there are more backups than the count, the count many
first entries (newest first) are kept; otherwise, with a count policy, all are
kept; with no count policy the set is empty. -/
def keepKeys (backups : List BackupObject) (policy : RetentionPolicy) : List String :=
  if policy.count > 0 ∧ (backups.length : Int) > policy.count then
    (backups.take policy.count.toNat).map BackupObject.key
  else if policy.count > 0 then
    backups.map BackupObject.key
  else
    []

/-- The per-object decision of the loop in determineBackupsToDelete: delete
when the age rule or the count rule fires, and the count policy did not
explicitly keep the object. -/
def deleteDecision (keep : List String) (policy : RetentionPolicy) (now : Int)
    (b : BackupObject) : Bool :=
  let shouldDelete :=
    (decide (policy.days > 0) &&
      decide (now - b.lastModified > policy.days * 24 * nanosecondsPerHour))
    || (decide (policy.count > 0) && !(keep.contains b.key))
  shouldDelete && (decide (policy.count = 0) || !(keep.contains b.key))

def determineBackupsToDelete (backups : List BackupObject) (policy : RetentionPolicy)
    (now : Int) : List BackupObject :=
  backups.filter (deleteDecision (keepKeys backups policy) policy now)

/-- One iteration of the deletion loop in ApplyRetention: a failed delete
appends its error, a successful delete bumps the count and records the key. -/
def retentionStep (del : String → Option String) (result : RetentionResult)
    (b : BackupObject) : RetentionResult :=
  match del b.key with
  | some e => { result with errors := result.errors ++ [e] }
  | none =>
      { result with
        deletedCount := result.deletedCount + 1,
        deletedKeys := result.deletedKeys ++ [b.key] }

/-- ApplyRetention, embedded from internal/storage/retention.go. The storage
client is abstracted by the outcome of its ListBackups call and by a delete
oracle giving, per key, the error its Delete call would return (none on
success). -/
def ApplyRetention (listResult : Except String (List BackupObject))
    (policy : RetentionPolicy) (now : Int) (del : String → Option String) :
    Except String RetentionResult :=
  if policy.IsEnabled then
    match listResult with
    | Except.error e => Except.error ("failed to list backups: " ++ e)
    | Except.ok backups =>
        Except.ok ((determineBackupsToDelete backups policy now).foldl
          (retentionStep del) ⟨0, [], []⟩)
  else
    Except.ok ⟨0, [], []⟩

lemma contains_of_mem {l : List String} {a : String} (h : a ∈ l) :
    l.contains a = true := by
  simpa using h

lemma key_mem_keepKeys {backups : List BackupObject} {policy : RetentionPolicy}
    {b : BackupObject} (hc : policy.count > 0)
    (hb : b ∈ backups.take policy.count.toNat) :
    b.key ∈ keepKeys backups policy := by
  unfold keepKeys
  by_cases hlen : policy.count > 0 ∧ (backups.length : Int) > policy.count
  · rw [if_pos hlen]
    exact List.mem_map_of_mem BackupObject.key hb
  · rw [if_neg hlen, if_pos hc]
    exact List.mem_map_of_mem BackupObject.key (List.take_subset _ _ hb)

lemma deleteDecision_false_of_kept {keep : List String}
    {policy : RetentionPolicy} {now : Int} {b : BackupObject}
    (hc : policy.count > 0) (hk : b.key ∈ keep) :
    deleteDecision keep policy now b = false := by
  unfold deleteDecision
  have h0 : decide (policy.count = 0) = false := by
    simp [decide_eq_false_iff_not]
    omega
  simp [h0, contains_of_mem hk]
  exact fun _ => hk

lemma deleteDecision_true_of_old_not_kept {keep : List String}
    {policy : RetentionPolicy} {now : Int} {b : BackupObject}
    (hd : policy.days > 0)
    (hage : now - b.lastModified > policy.days * 24 * nanosecondsPerHour)
    (hk : b.key ∉ keep) :
    deleteDecision keep policy now b = true := by
  have hcont : keep.contains b.key = false := by
    simpa using hk
  unfold deleteDecision
  simp [hcont, decide_eq_true hd, decide_eq_true hage]
  exact Or.inr hk

/-- Claim C1, counterexample: with policy maxAgeDays = 7, maxCount = 2 and an
inventory of two objects, the newest object is in the protect set and its age
(8 days) strictly exceeds maxAgeDays, yet determineBackupsToDelete does not
select it — contradicting the claim that such an object is still selected. -/
theorem protectedOldObject_counterexample :
    (7 : Int) > 0 ∧ (2 : Int) > 0 ∧
    (⟨"a", 0, 0⟩ : BackupObject) ∈
      ([⟨"a", 0, 0⟩, ⟨"b", 0, -nanosecondsPerHour⟩] : List BackupObject).take
        (2 : Int).toNat ∧
    (8 * 24 * nanosecondsPerHour : Int) -
      (⟨"a", 0, 0⟩ : BackupObject).lastModified > 7 * 24 * nanosecondsPerHour ∧
    (⟨"a", 0, 0⟩ : BackupObject) ∉
      determineBackupsToDelete [⟨"a", 0, 0⟩, ⟨"b", 0, -nanosecondsPerHour⟩]
        ⟨7, 2⟩ (8 * 24 * nanosecondsPerHour) := by
  refine ⟨by decide, by decide, by decide, by decide, ?_⟩
  decide

/-- Claim C1 (amended): for every policy with maxAgeDays > 0 and maxCount > 0,
an object among the maxCount most-recent (the protect set) is never selected
for deletion by determineBackupsToDelete, even when its age exceeds maxAgeDays
days — count protection shields it from the age rule as well as the count
rule. -/
theorem countProtectionShieldsFromAgeRule
    (backups : List BackupObject) (policy : RetentionPolicy) (now : Int)
    (b : BackupObject) (hd : policy.days > 0) (hc : policy.count > 0)
    (hb : b ∈ backups.take policy.count.toNat) :
    b ∉ determineBackupsToDelete backups policy now := by
  intro hmem
  rw [determineBackupsToDelete, List.mem_filter] at hmem
  rw [deleteDecision_false_of_kept hc (key_mem_keepKeys hc hb)] at hmem
  exact absurd hmem.2 (by simp)

/-- Witness for the amended C1: a single 10-day-old backup under policy
maxAgeDays = 7, maxCount = 1 is in the protect set and is not selected. -/
theorem countProtectionShieldsFromAgeRule_witness :
    (7 : Int) > 0 ∧ (1 : Int) > 0 ∧
    (⟨"a", 0, 0⟩ : BackupObject) ∈
      ([⟨"a", 0, 0⟩] : List BackupObject).take (1 : Int).toNat ∧
    (⟨"a", 0, 0⟩ : BackupObject) ∉
      determineBackupsToDelete [⟨"a", 0, 0⟩] ⟨7, 1⟩
        (10 * 24 * nanosecondsPerHour) :=
  ⟨by decide, by decide, by decide,
    countProtectionShieldsFromAgeRule _ _ _ _ (by decide) (by decide) (by decide)⟩

/-- Claim C2: for an inventory of exactly three backups listed newest first
with pairwise distinct keys, each strictly older than 7 days, under policy
maxAgeDays = 7, maxCount = 2, determineBackupsToDelete selects exactly the
single oldest object; the two most recent are not selected. -/
theorem threeOldBackups_countTwo_deletesOnlyOldest
    (b1 b2 b3 : BackupObject) (now : Int)
    (hs1 : b1.lastModified ≥ b2.lastModified)
    (hs2 : b2.lastModified ≥ b3.lastModified)
    (hk1 : b3.key ≠ b1.key) (hk2 : b3.key ≠ b2.key)
    (h1 : now - b1.lastModified > 7 * 24 * nanosecondsPerHour)
    (h2 : now - b2.lastModified > 7 * 24 * nanosecondsPerHour)
    (h3 : now - b3.lastModified > 7 * 24 * nanosecondsPerHour) :
    determineBackupsToDelete [b1, b2, b3] ⟨7, 2⟩ now = [b3] := by
  have hkeep : keepKeys [b1, b2, b3] ⟨7, 2⟩ = [b1.key, b2.key] := by
    unfold keepKeys
    rw [if_pos (by refine ⟨by norm_num, by norm_num⟩)]
    rfl
  have hd1 : deleteDecision [b1.key, b2.key] ⟨7, 2⟩ now b1 = false :=
    deleteDecision_false_of_kept (by decide) (by simp)
  have hd2 : deleteDecision [b1.key, b2.key] ⟨7, 2⟩ now b2 = false :=
    deleteDecision_false_of_kept (by decide) (by simp)
  have hd3 : deleteDecision [b1.key, b2.key] ⟨7, 2⟩ now b3 = true :=
    deleteDecision_true_of_old_not_kept (by decide) h3 (by simp [hk1, hk2])
  rw [determineBackupsToDelete, hkeep]
  simp [List.filter_cons, hd1, hd2, hd3]

/-- Witness for C2 at a concrete inventory: objects aged 8 days, 8 days + 1
hour and 8 days + 2 hours all exceed the 7-day limit; only the oldest is
selected. -/
theorem threeOldBackups_countTwo_deletesOnlyOldest_witness :
    determineBackupsToDelete
      [⟨"a", 0, 0⟩, ⟨"b", 0, -nanosecondsPerHour⟩,
        ⟨"c", 0, -2 * nanosecondsPerHour⟩] ⟨7, 2⟩
      (8 * 24 * nanosecondsPerHour) = [⟨"c", 0, -2 * nanosecondsPerHour⟩] :=
  threeOldBackups_countTwo_deletesOnlyOldest _ _ _ _
    (by decide) (by decide) (by decide) (by decide)
    (by decide) (by decide) (by decide)

/-- Claim C9: with maxCount > 0 and an inventory of at most maxCount objects,
determineBackupsToDelete deletes nothing, whatever the ages and the age
policy. -/
theorem atMostCountBackups_deletesNothing
    (backups : List BackupObject) (policy : RetentionPolicy) (now : Int)
    (hc : policy.count > 0) (hlen : (backups.length : Int) ≤ policy.count) :
    determineBackupsToDelete backups policy now = [] := by
  rw [determineBackupsToDelete, List.filter_eq_nil_iff]
  intro b hb
  have hk : b.key ∈ keepKeys backups policy := by
    unfold keepKeys
    rw [if_neg (by omega), if_pos hc]
    exact List.mem_map_of_mem _ hb
  simp [deleteDecision_false_of_kept hc hk]

/-- Witness for C9: two objects, both 8 days old, under maxAgeDays = 7 and
maxCount = 5; nothing is selected. -/
theorem atMostCountBackups_deletesNothing_witness :
    (5 : Int) > 0 ∧
    ((([⟨"a", 0, 0⟩, ⟨"b", 0, -1⟩] : List BackupObject).length : Int) ≤ 5) ∧
    determineBackupsToDelete [⟨"a", 0, 0⟩, ⟨"b", 0, -1⟩] ⟨7, 5⟩
      (8 * 24 * nanosecondsPerHour) = [] :=
  ⟨by decide, by decide,
    atMostCountBackups_deletesNothing _ _ _ (by decide) (by decide)⟩

lemma foldl_retentionStep (del : String → Option String) :
    ∀ (l : List BackupObject) (acc : RetentionResult),
      l.foldl (retentionStep del) acc =
        ⟨acc.deletedCount + (l.filter (fun b => (del b.key).isNone)).length,
         acc.deletedKeys ++ (l.filter (fun b => (del b.key).isNone)).map BackupObject.key,
         acc.errors ++ l.filterMap (fun b => del b.key)⟩
  | [], acc => by simp
  | b :: l, acc => by
      rw [List.foldl_cons, foldl_retentionStep del l]
      cases h : del b.key with
      | some e =>
          simp [retentionStep, h, List.filter_cons, List.filterMap_cons]
      | none =>
          simp [retentionStep, h, List.filter_cons, List.filterMap_cons,
            Nat.add_assoc, Nat.add_comm 1]

lemma filter_isNone_length_add_filterMap_length (del : String → Option String)
    (l : List BackupObject) :
    (l.filter (fun b => (del b.key).isNone)).length +
      (l.filterMap (fun b => del b.key)).length = l.length := by
  induction l with
  | nil => simp
  | cons b l ih =>
      cases h : del b.key <;>
        simp [List.filter_cons, List.filterMap_cons, h] <;> omega

/-- Claim C10: with an enabled policy, the RetentionResult returned by
ApplyRetention has DeletedCount equal to the number of DeletedKeys, every
deleted key comes from the deletion set of determineBackupsToDelete, and each
failing delete contributes one error entry while the remaining objects are
still processed (deleted keys and errors together account for the entire
deletion set). -/
theorem applyRetention_resultInvariants
    (backups : List BackupObject) (policy : RetentionPolicy) (now : Int)
    (del : String → Option String) (r : RetentionResult)
    (hEn : policy.IsEnabled = true)
    (h : ApplyRetention (Except.ok backups) policy now del = Except.ok r) :
    r.deletedCount = r.deletedKeys.length ∧
    (∀ k ∈ r.deletedKeys,
      k ∈ (determineBackupsToDelete backups policy now).map BackupObject.key) ∧
    r.deletedKeys.length + r.errors.length =
      (determineBackupsToDelete backups policy now).length := by
  rw [ApplyRetention] at h
  rw [if_pos hEn] at h
  rw [foldl_retentionStep] at h
  have hr := (Except.ok.injEq _ _).mp h.symm
  subst hr
  refine ⟨by simp, ?_, ?_⟩
  · intro k hk
    simp only [List.nil_append] at hk
    rcases List.mem_map.mp hk with ⟨b, hb, hkey⟩
    exact hkey ▸ List.mem_map_of_mem _ (List.mem_of_mem_filter hb)
  · simp only [List.nil_append, Nat.zero_add, List.length_map]
    exact filter_isNone_length_add_filterMap_length del _

/-- Witness for C10: three backups under a count-1 policy give a deletion set
of two; the delete of key b fails, the delete of key c succeeds. -/
theorem applyRetention_resultInvariants_witness :
    ((⟨1, ["c"], ["boom"]⟩ : RetentionResult).deletedCount =
      (⟨1, ["c"], ["boom"]⟩ : RetentionResult).deletedKeys.length) ∧
    (∀ k ∈ (⟨1, ["c"], ["boom"]⟩ : RetentionResult).deletedKeys,
      k ∈ (determineBackupsToDelete
        [⟨"a", 0, 0⟩, ⟨"b", 0, -1⟩, ⟨"c", 0, -2⟩] ⟨0, 1⟩ 0).map
          BackupObject.key) ∧
    (⟨1, ["c"], ["boom"]⟩ : RetentionResult).deletedKeys.length +
      (⟨1, ["c"], ["boom"]⟩ : RetentionResult).errors.length =
      (determineBackupsToDelete
        [⟨"a", 0, 0⟩, ⟨"b", 0, -1⟩, ⟨"c", 0, -2⟩] ⟨0, 1⟩ 0).length :=
  applyRetention_resultInvariants
    [⟨"a", 0, 0⟩, ⟨"b", 0, -1⟩, ⟨"c", 0, -2⟩] ⟨0, 1⟩ 0
    (fun k => if k = "b" then some "boom" else none) ⟨1, ["c"], ["boom"]⟩
    (by decide) rfl

/-! Authenticated encryption stream framing, embedded from internal/encrypt
(AESEncryptor). Bytes are modelled as Nat. -/

abbrev NonceSize : Nat := 12

abbrev KeySize : Nat := 32

/-- Flip bit j of the byte at index i of a byte sequence (an out-of-range
index leaves the sequence unchanged). -/
def flipBit (s : List Nat) (i j : Nat) : List Nat :=
  s.set i (s.getD i 0 ^^^ (1 <<< j))

/-- An AEAD primitive: Seal takes key, nonce and plaintext to
ciphertext-plus-tag; Open takes key, nonce and ciphertext-plus-tag back to
the plaintext, or fails. -/
structure AEAD where
  Seal : List Nat → List Nat → List Nat → List Nat
  Open : List Nat → List Nat → List Nat → Option (List Nat)

/-- Modelled from the spec: the AEAD primitive used by AESEncryptor
(crypto/cipher.NewGCM over crypto/aes) is Go standard library code, not part
of this repository. These are the properties the specification assigns to the
seal/open pair for a 12-byte nonce: opening a sealed output under the same
key and nonce returns the exact plaintext; the sealed output is the plaintext
plus a 16-byte authentication tag; and opening the nonce/ciphertext split of
any single-bit corruption of the framed output fails. -/
structure AEADSpec (g : AEAD) : Prop where
  roundtrip : ∀ k n p, n.length = NonceSize →
    g.Open k n (g.Seal k n p) = some p
  sealLength : ∀ k n p, n.length = NonceSize →
    (g.Seal k n p).length = p.length + 16
  tamperDetect : ∀ k n p i j, n.length = NonceSize →
    i < (n ++ g.Seal k n p).length → j < 8 →
    g.Open k ((flipBit (n ++ g.Seal k n p) i j).take NonceSize)
      ((flipBit (n ++ g.Seal k n p) i j).drop NonceSize) = none

/-- NewAESEncryptor: a key of any length other than 32 bytes is rejected
immediately, before any I/O or cryptographic call. -/
def NewAESEncryptor (key : List Nat) : Except String (List Nat) :=
  if key.length ≠ KeySize then
    Except.error ("key must be exactly 32 bytes, got " ++ toString key.length)
  else
    Except.ok key

/-- The encryption-key length check inside config Load, applied to the
base64-decoded key bytes: a decoded key that is not exactly 32 bytes aborts
configuration loading. -/
def loadKeyLengthCheck (key : List Nat) : Except String (List Nat) :=
  if key.length ≠ 32 then
    Except.error ("invalid encryption key: must be exactly 32 bytes (256 bits), got "
      ++ toString key.length ++ " bytes")
  else
    Except.ok key

/-- AESEncryptor.Encrypt: the freshly drawn random nonce (modelled as a
parameter) is emitted first, then the sealed ciphertext-plus-tag of the whole
input stream. -/
def AESEncryptor.Encrypt (g : AEAD) (key nonce p : List Nat) : List Nat :=
  nonce ++ g.Seal key nonce p

/-- AESEncryptor.Decrypt: read exactly 12 bytes of nonce (failing when fewer
are available), read the rest as ciphertext, then open; a verification
failure yields an error and no plaintext at all is produced. -/
def AESEncryptor.Decrypt (g : AEAD) (key s : List Nat) : Except String (List Nat) :=
  if s.length < NonceSize then
    Except.error "failed to read nonce"
  else
    match g.Open key (s.take NonceSize) (s.drop NonceSize) with
    | none => Except.error "failed to decrypt"
    | some p => Except.ok p

lemma decrypt_encrypt (g : AEAD) (hg : AEADSpec g) (key nonce p : List Nat)
    (hn : nonce.length = NonceSize) :
    AESEncryptor.Decrypt g key (AESEncryptor.Encrypt g key nonce p) =
      Except.ok p := by
  unfold AESEncryptor.Decrypt AESEncryptor.Encrypt
  rw [if_neg (by simp [hn, NonceSize])]
  rw [List.take_left' hn, List.drop_left' hn, hg.roundtrip key nonce p hn]

/-- Claim C3: for every byte sequence P (including the empty one) and every
32-byte key, Decrypt applied to the stream produced by Encrypt under the same
key yields exactly P. -/
theorem encryptDecrypt_roundtrip (g : AEAD) (hg : AEADSpec g)
    (key nonce p : List Nat) (hkey : key.length = KeySize)
    (hn : nonce.length = NonceSize) :
    AESEncryptor.Decrypt g key (AESEncryptor.Encrypt g key nonce p) =
      Except.ok p :=
  decrypt_encrypt g hg key nonce p hn

/-- Claim C5: flipping any single bit of an Encrypt output makes Decrypt fail
with an error; no plaintext, altered or partial, is ever returned. -/
theorem decrypt_rejectsBitFlippedStream (g : AEAD) (hg : AEADSpec g)
    (key nonce p : List Nat) (i j : Nat) (hkey : key.length = KeySize)
    (hn : nonce.length = NonceSize)
    (hi : i < (AESEncryptor.Encrypt g key nonce p).length) (hj : j < 8) :
    AESEncryptor.Decrypt g key
        (flipBit (AESEncryptor.Encrypt g key nonce p) i j) =
      Except.error "failed to decrypt" := by
  unfold AESEncryptor.Decrypt AESEncryptor.Encrypt
  unfold AESEncryptor.Encrypt at hi
  rw [if_neg (by simp [flipBit, hn, NonceSize])]
  rw [hg.tamperDetect key nonce p i j hn hi hj]

/-- Claim C6: constructing the encryptor succeeds exactly for 32-byte keys
and otherwise fails with the key-size error, and the configuration loader
applies the same length rule to the decoded encryption key. -/
theorem newAESEncryptor_keySizeValidation (key : List Nat) :
    (NewAESEncryptor key = Except.ok key ↔ key.length = 32) ∧
    (NewAESEncryptor key =
        Except.error ("key must be exactly 32 bytes, got " ++ toString key.length)
      ↔ key.length ≠ 32) ∧
    (loadKeyLengthCheck key = Except.ok key ↔ key.length = 32) ∧
    (loadKeyLengthCheck key =
        Except.error ("invalid encryption key: must be exactly 32 bytes (256 bits), got "
          ++ toString key.length ++ " bytes")
      ↔ key.length ≠ 32) := by
  by_cases h : key.length = 32 <;>
    simp [NewAESEncryptor, loadKeyLengthCheck, KeySize, h]

/-- Claim C7: encrypting the same plaintext under the same key with two
distinct fresh nonces yields distinct outputs, each carrying its nonce as the
first 12 bytes, and both outputs decrypt to the same plaintext. -/
theorem encrypt_nonceFreshness (g : AEAD) (hg : AEADSpec g)
    (key p n1 n2 : List Nat) (hkey : key.length = KeySize)
    (h1 : n1.length = NonceSize) (h2 : n2.length = NonceSize)
    (hne : n1 ≠ n2) :
    AESEncryptor.Encrypt g key n1 p ≠ AESEncryptor.Encrypt g key n2 p ∧
    (AESEncryptor.Encrypt g key n1 p).take NonceSize = n1 ∧
    (AESEncryptor.Encrypt g key n2 p).take NonceSize = n2 ∧
    AESEncryptor.Decrypt g key (AESEncryptor.Encrypt g key n1 p) =
      Except.ok p ∧
    AESEncryptor.Decrypt g key (AESEncryptor.Encrypt g key n2 p) =
      Except.ok p := by
  have t1 : (AESEncryptor.Encrypt g key n1 p).take NonceSize = n1 :=
    List.take_left' h1
  have t2 : (AESEncryptor.Encrypt g key n2 p).take NonceSize = n2 :=
    List.take_left' h2
  refine ⟨?_, t1, t2, decrypt_encrypt g hg key n1 p h1,
    decrypt_encrypt g hg key n2 p h2⟩
  intro he
  exact hne (t1 ▸ t2 ▸ congrArg (List.take NonceSize) he)

/-! An executable reference AEAD realizing the spec-level contract, used to
instantiate the abstract encryption theorems at concrete inputs. Its tag is
one checksum byte followed by the nonce and three zero bytes (16 bytes for a
12-byte nonce); any single-bit change of nonce, ciphertext body or tag makes
the recomputed tag differ from the stored one. -/

def xorAll (l : List Nat) : Nat := l.foldr (fun a b => a ^^^ b) 0

def toyTag (n p : List Nat) : List Nat := xorAll p :: (n ++ [0, 0, 0])

def toyAEAD : AEAD where
  Seal := fun _ n p => p ++ toyTag n p
  Open := fun _ n c =>
    if c.length < 16 then none
    else if c.drop (c.length - 16) = toyTag n (c.take (c.length - 16)) then
      some (c.take (c.length - 16))
    else none

lemma xorAll_cons (a : Nat) (l : List Nat) :
    xorAll (a :: l) = a ^^^ xorAll l := rfl

lemma toyTag_length (n p : List Nat) (hn : n.length = 12) :
    (toyTag n p).length = 16 := by
  simp [toyTag, hn]

lemma xor_ne_self (x m : Nat) (hm : m ≠ 0) : x ^^^ m ≠ x := by
  intro h
  have h1 : x ^^^ (x ^^^ m) = x ^^^ x := congrArg (x ^^^ ·) h
  rw [← Nat.xor_assoc, Nat.xor_self, Nat.zero_xor] at h1
  exact hm h1

lemma getD_set_self (l : List Nat) (i v : Nat) (h : i < l.length) :
    (l.set i v).getD i 0 = v := by
  rw [List.getD_eq_getElem?_getD, List.getElem?_set_self]
  · simp
  · omega

lemma set_flip_ne_self (l : List Nat) (i m : Nat) (h : i < l.length)
    (hm : m ≠ 0) : l.set i (l.getD i 0 ^^^ m) ≠ l := by
  intro he
  have h1 : (l.set i (l.getD i 0 ^^^ m)).getD i 0 = l.getD i 0 := by rw [he]
  rw [getD_set_self l i _ h] at h1
  exact xor_ne_self _ m hm h1

lemma xorAll_set (p : List Nat) (q m : Nat) (hq : q < p.length) :
    xorAll (p.set q (p.getD q 0 ^^^ m)) = xorAll p ^^^ m := by
  induction p generalizing q with
  | nil => simp at hq
  | cons a p ih =>
      cases q with
      | zero =>
          simp only [List.set, List.getD_cons_zero, xorAll_cons]
          rw [Nat.xor_assoc, Nat.xor_comm m, ← Nat.xor_assoc]
      | succ q =>
          simp only [List.set, List.getD_cons_succ, xorAll_cons]
          rw [ih q (by simpa using hq), ← Nat.xor_assoc]

lemma toyOpen_append (k n body tag : List Nat) (ht : tag.length = 16) :
    toyAEAD.Open k n (body ++ tag) =
      if tag = toyTag n body then some body else none := by
  show (if (body ++ tag).length < 16 then none
    else if (body ++ tag).drop ((body ++ tag).length - 16) =
        toyTag n ((body ++ tag).take ((body ++ tag).length - 16)) then
      some ((body ++ tag).take ((body ++ tag).length - 16))
    else none) = _
  have hlen : (body ++ tag).length = body.length + 16 := by simp [ht]
  have hb : body.length = (body ++ tag).length - 16 := by omega
  rw [if_neg (by omega), List.take_left' hb, List.drop_left' hb]

lemma toyTag_ne_of_nonce_ne {n n' p : List Nat} (h : n ≠ n') :
    toyTag n p ≠ toyTag n' p := by
  intro he
  rw [toyTag, toyTag, List.cons.injEq] at he
  exact h (List.append_cancel_right he.2)

lemma toyTag_ne_of_checksum_ne {n p p' : List Nat} (h : xorAll p ≠ xorAll p') :
    toyTag n p ≠ toyTag n p' := by
  intro he
  rw [toyTag, toyTag, List.cons.injEq] at he
  exact h he.1

lemma toyAEAD_spec : AEADSpec toyAEAD := by
  constructor
  case roundtrip =>
    intro k n p hn
    show toyAEAD.Open k n (p ++ toyTag n p) = some p
    rw [toyOpen_append k n p _ (toyTag_length n p (hn.trans rfl)), if_pos rfl]
  case sealLength =>
    intro k n p hn
    show (p ++ toyTag n p).length = p.length + 16
    simp [toyTag, hn]
  case tamperDetect =>
    intro k n p i j hn hi hj
    have hm : (1 <<< j) ≠ 0 := by
      rw [Nat.one_shiftLeft]
      exact Nat.pos_iff_ne_zero.mp (pow_pos (by omega) j)
    have hn12 : n.length = 12 := hn.trans rfl
    set t := toyTag n p with htdef
    have ht : t.length = 16 := toyTag_length n p hn12
    show toyAEAD.Open k ((flipBit (n ++ (p ++ t)) i j).take NonceSize)
      ((flipBit (n ++ (p ++ t)) i j).drop NonceSize) = none
    have hi' : i < (n ++ (p ++ t)).length := hi
    have hlen' : i < 12 + p.length + 16 := by
      rw [List.length_append, List.length_append, hn12, ht] at hi'
      omega
    rcases Nat.lt_or_ge i 12 with hA | hge
    · have hgd : (n ++ (p ++ t)).getD i 0 = n.getD i 0 :=
        List.getD_append _ _ _ _ (by omega)
      have hset : flipBit (n ++ (p ++ t)) i j =
          n.set i (n.getD i 0 ^^^ (1 <<< j)) ++ (p ++ t) := by
        rw [flipBit, hgd, List.set_append_left _ _ (by omega)]
      have hn'len : (n.set i (n.getD i 0 ^^^ (1 <<< j))).length = NonceSize := by
        simpa using hn
      rw [hset, List.take_left' hn'len, List.drop_left' hn'len]
      rw [toyOpen_append k _ p t ht]
      rw [if_neg (htdef ▸ toyTag_ne_of_nonce_ne
        (Ne.symm (set_flip_ne_self n i _ (by omega) hm)))]
    · rcases Nat.lt_or_ge i (12 + p.length) with hB | hC
      · have hq : i - 12 < p.length := by omega
        have hgd : (n ++ (p ++ t)).getD i 0 = p.getD (i - 12) 0 := by
          rw [List.getD_append_right _ _ _ _ (by omega), hn12,
            List.getD_append _ _ _ _ hq]
        have hset : flipBit (n ++ (p ++ t)) i j =
            n ++ (p.set (i - 12) (p.getD (i - 12) 0 ^^^ (1 <<< j)) ++ t) := by
          rw [flipBit, hgd, List.set_append_right _ _ (by omega), hn12,
            List.set_append_left _ _ hq]
        rw [hset, List.take_left' hn, List.drop_left' hn]
        rw [toyOpen_append k n _ t ht]
        refine if_neg (htdef ▸ toyTag_ne_of_checksum_ne ?_)
        rw [xorAll_set p (i - 12) _ hq]
        exact (xor_ne_self (xorAll p) _ hm).symm
      · have hr : i - 12 - p.length < 16 := by omega
        have hgd : (n ++ (p ++ t)).getD i 0 = t.getD (i - 12 - p.length) 0 := by
          rw [List.getD_append_right _ _ _ _ (by omega), hn12,
            List.getD_append_right _ _ _ _ (by omega)]
        have hset : flipBit (n ++ (p ++ t)) i j =
            n ++ (p ++ t.set (i - 12 - p.length)
              (t.getD (i - 12 - p.length) 0 ^^^ (1 <<< j))) := by
          rw [flipBit, hgd, List.set_append_right _ _ (by omega), hn12,
            List.set_append_right _ _ (by omega)]
        have ht'len : (t.set (i - 12 - p.length)
            (t.getD (i - 12 - p.length) 0 ^^^ (1 <<< j))).length = 16 := by
          simpa using ht
        rw [hset, List.take_left' hn, List.drop_left' hn]
        rw [toyOpen_append k n p _ ht'len]
        exact if_neg (set_flip_ne_self t _ _ (by omega) hm)

/-- Witness for C3 at a concrete instance, exercising the zero-length
plaintext edge case the specification calls out. -/
theorem encryptDecrypt_roundtrip_witness :
    AESEncryptor.Decrypt toyAEAD (List.replicate 32 0)
        (AESEncryptor.Encrypt toyAEAD (List.replicate 32 0)
          (List.replicate 12 1) []) =
      Except.ok [] :=
  encryptDecrypt_roundtrip toyAEAD toyAEAD_spec (List.replicate 32 0)
    (List.replicate 12 1) [] (by decide) (by decide)

/-- Witness for C5 at a concrete instance: flipping bit 0 of byte 12 (the
first sealed byte) of an encrypted stream makes decryption fail. -/
theorem decrypt_rejectsBitFlippedStream_witness :
    AESEncryptor.Decrypt toyAEAD (List.replicate 32 0)
        (flipBit (AESEncryptor.Encrypt toyAEAD (List.replicate 32 0)
          (List.replicate 12 1) [5]) 12 0) =
      Except.error "failed to decrypt" :=
  decrypt_rejectsBitFlippedStream toyAEAD toyAEAD_spec (List.replicate 32 0)
    (List.replicate 12 1) [5] 12 0 (by decide) (by decide) (by decide)
    (by decide)

/-- Witness for C7 at a concrete instance with two distinct nonces. -/
theorem encrypt_nonceFreshness_witness :
    AESEncryptor.Encrypt toyAEAD (List.replicate 32 0) (List.replicate 12 1) [7] ≠
      AESEncryptor.Encrypt toyAEAD (List.replicate 32 0) (List.replicate 12 2) [7] ∧
    (AESEncryptor.Encrypt toyAEAD (List.replicate 32 0)
      (List.replicate 12 1) [7]).take NonceSize = List.replicate 12 1 ∧
    (AESEncryptor.Encrypt toyAEAD (List.replicate 32 0)
      (List.replicate 12 2) [7]).take NonceSize = List.replicate 12 2 ∧
    AESEncryptor.Decrypt toyAEAD (List.replicate 32 0)
        (AESEncryptor.Encrypt toyAEAD (List.replicate 32 0)
          (List.replicate 12 1) [7]) = Except.ok [7] ∧
    AESEncryptor.Decrypt toyAEAD (List.replicate 32 0)
        (AESEncryptor.Encrypt toyAEAD (List.replicate 32 0)
          (List.replicate 12 2) [7]) = Except.ok [7] :=
  encrypt_nonceFreshness toyAEAD toyAEAD_spec (List.replicate 32 0) [7]
    (List.replicate 12 1) (List.replicate 12 2) (by decide) (by decide)
    (by decide) (by decide)

/-! Child-process stream close semantics, embedded from
internal/backup/postgres.go (cmdReadCloser.Close). The external process is
abstracted by its captured stderr text, the outcome of closing its stdout
pipe, and the outcome of Wait — an error exactly when the process exited
nonzero. -/

structure CmdState where
  stderrData : String
  stdoutCloseErr : Option String
  waitErr : Option String
deriving Repr, DecidableEq

inductive CloseOutcome where
  | ok : CloseOutcome
  | stdoutErr : String → CloseOutcome
  | backupError : String → String → String → CloseOutcome
deriving Repr, DecidableEq

/-- cmdReadCloser.Close: read the captured stderr, close the stdout pipe
(returning its error unwrapped on failure), wait for the process, and wrap a
nonzero exit into a BackupError carrying database type, database name and a
message that bundles the captured stderr text when it is nonempty. -/
def cmdReadCloser.Close (dbType dbName : String) (st : CmdState) : CloseOutcome :=
  match st.stdoutCloseErr with
  | some e => CloseOutcome.stdoutErr e
  | none =>
      match st.waitErr with
      | some we =>
          if st.stderrData ≠ "" then
            CloseOutcome.backupError dbType dbName (we ++ ": " ++ st.stderrData)
          else
            CloseOutcome.backupError dbType dbName we
      | none => CloseOutcome.ok

/-- Claim C4: when the dump process exits nonzero and all reads plus the
stdout close succeeded, Close returns a non-ok backup error whose message
carries the captured stderr text whenever any was captured. -/
theorem cmdClose_surfacesExportFailure (dbType dbName : String) (st : CmdState)
    (we : String) (hwait : st.waitErr = some we)
    (hclose : st.stdoutCloseErr = none) :
    cmdReadCloser.Close dbType dbName st ≠ CloseOutcome.ok ∧
    ∃ msg, cmdReadCloser.Close dbType dbName st =
        CloseOutcome.backupError dbType dbName msg ∧
      (st.stderrData ≠ "" → msg = we ++ ": " ++ st.stderrData) ∧
      (st.stderrData = "" → msg = we) := by
  by_cases hs : st.stderrData = ""
  · have hc : cmdReadCloser.Close dbType dbName st =
        CloseOutcome.backupError dbType dbName we := by
      unfold cmdReadCloser.Close
      rw [hclose, hwait]
      simp [hs]
    exact ⟨by rw [hc]; simp, we, hc, fun h => absurd hs h, fun _ => rfl⟩
  · have hc : cmdReadCloser.Close dbType dbName st =
        CloseOutcome.backupError dbType dbName (we ++ ": " ++ st.stderrData) := by
      unfold cmdReadCloser.Close
      rw [hclose, hwait]
      simp [hs]
    exact ⟨by rw [hc]; simp, we ++ ": " ++ st.stderrData, hc, fun _ => rfl,
      fun h => absurd h hs⟩

/-- Witness for C4: pg_dump exits with status 1 after its output was fully
read; Close reports the failure with the captured stderr bundled in. -/
theorem cmdClose_surfacesExportFailure_witness :
    cmdReadCloser.Close "postgres" "mydb"
        ⟨"pg_dump: connection refused", none, some "exit status 1"⟩ ≠
      CloseOutcome.ok ∧
    ∃ msg, cmdReadCloser.Close "postgres" "mydb"
          ⟨"pg_dump: connection refused", none, some "exit status 1"⟩ =
        CloseOutcome.backupError "postgres" "mydb" msg ∧
      (("pg_dump: connection refused" : String) ≠ "" →
        msg = "exit status 1" ++ ": " ++ "pg_dump: connection refused") ∧
      (("pg_dump: connection refused" : String) = "" → msg = "exit status 1") :=
  cmdClose_surfacesExportFailure "postgres" "mydb"
    ⟨"pg_dump: connection refused", none, some "exit status 1"⟩
    "exit status 1" rfl rfl

/-! Artifact naming, embedded from performBackup in main.go together with the
extension methods of the gzip compressor and the AES encryptor. -/

def DatabaseTypePostgres : String := "postgres"

def DatabaseTypeMySQL : String := "mysql"

def DatabaseTypeMongoDB : String := "mongodb"

def GzipCompressor.Extension : String := ".gz"

def AESEncryptor.Extension : String := ".enc"

/-- The extension switch in performBackup: each known database type appends
its dump format extension; the switch has no default case. -/
def databaseTypeExtension (dbType : String) : String :=
  if dbType = DatabaseTypePostgres then ".dump"
  else if dbType = DatabaseTypeMySQL then ".sql"
  else if dbType = DatabaseTypeMongoDB then ".tar"
  else ""

/-- The filename built step by step by performBackup: base name joining type,
name and UTC timestamp with dashes, then the type extension, then the
compressor extension when compression is enabled, then the encryptor
extension when encryption is enabled. -/
def performBackupFilename (dbType dbName timestamp : String)
    (compression encryption : Bool) : String :=
  let f0 := dbType ++ "-" ++ dbName ++ "-" ++ timestamp
  let f1 := f0 ++ databaseTypeExtension dbType
  let f2 := if compression then f1 ++ GzipCompressor.Extension else f1
  if encryption then f2 ++ AESEncryptor.Extension else f2

/-- Claim C8: the artifact name is the dbtype-dbname-timestamp base followed
by the database-type extension, then the gzip suffix exactly when compression
is enabled, then the encryption suffix exactly when encryption is enabled —
in pipeline stage order. -/
theorem backupFilename_suffixOrder (dbType dbName timestamp : String)
    (compression encryption : Bool) :
    performBackupFilename dbType dbName timestamp compression encryption =
      dbType ++ "-" ++ dbName ++ "-" ++ timestamp ++ databaseTypeExtension dbType
        ++ (if compression then ".gz" else "")
        ++ (if encryption then ".enc" else "") := by
  unfold performBackupFilename GzipCompressor.Extension AESEncryptor.Extension
  cases compression <;> cases encryption <;>
    simp [String.append_assoc]

end AutoDbBackups
